import Mathlib

/-!
# Session core of linphone (`src/core/core.cpp`)

A shallow embedding of `CorePrivate` / `Core` from `core.cpp`.

* C++ pointers are addresses (`Ptr := Nat`); `new` hands out the next unused
  address `heapNext`, and nothing in `core.cpp` ever frees an engine.
* Calls into external collaborators (store, listeners, calls, encryption
  engine, logger) are recorded, in program order, in the field `trace`.
* A function that can leave its normal path returns an `Outcome` next to the
  state reached.
-/

namespace Linphone

/-- Address of a heap object (the value of a C++ pointer). -/
abbrev Ptr := Nat

/-- The enumeration `AbstractDb::Backend`. -/
inductive Backend
  | Mysql
  | Sqlite3
  deriving DecidableEq, Repr

/-- The enumeration `lime::CurveId` (only the two curves named in `core.cpp`). -/
inductive CurveId
  | c25519
  | c448
  deriving DecidableEq, Repr

/-- The enumeration `LinphoneRegistrationState`. -/
inductive LinphoneRegistrationState
  | None
  | Progress
  | Ok
  | Cleared
  | Failed
  deriving DecidableEq, Repr

/-- Modelled from the spec: the configuration-file reader, of which "only key/value lookup is
consumed". A configuration is a list of `(section, key, value)` items. -/
abbrev LpConfig := List (String × String × String)

/-- A `LinphoneAddress`, as far as `core.cpp` looks at it: its
`linphone_address_as_string_uri_only` rendering. -/
structure LinphoneAddress where
  asStringUriOnly : String
  deriving DecidableEq, Repr

/-- A `LinphoneProxyConfig` (registration entry), as far as `core.cpp` looks at it:
`linphone_proxy_config_lime_v2_enabled` and `linphone_proxy_config_get_contact`
(`none` is the null pointer). -/
structure LinphoneProxyConfig where
  limeV2Enabled : Bool
  contact : Option LinphoneAddress
  deriving DecidableEq, Repr

/-- A persisted conversation: its stable identifier. -/
structure ChatRoom where
  chatRoomId : Nat
  deriving DecidableEq, Repr

/-- Calls made by `core.cpp` into its collaborators, in the order they are made. -/
inductive Event
  | lInfo (msg : String)
  | connect (backend : Backend) (uri : String)
  | lFatal (msg : String)
  | loadChatRooms
  | terminate (call : Ptr)
  | linphone_core_iterate
  | ms_usleep (usec : Nat)
  | clearSipAddressesCache
  | onNetworkReachable (listener : Ptr) (sipNetworkReachable mediaNetworkReachable : Bool)
  | onRegistrationStateChanged (listener : Ptr) (cfg : LinphoneProxyConfig)
      (state : LinphoneRegistrationState) (message : String)
  | newLimeV2 (engine : Ptr) (db_access : String)
  | deleteEngine (engine : Ptr)
  | setLimeCallback (engine : Ptr) (operation : String)
  | create_user (engine : Ptr) (localDeviceId x3dhServerUrl : String) (curve : CurveId)
  | ms_message (msg : String)
  | update (engine : Ptr) (config : LpConfig)
  deriving DecidableEq, Repr

/-- How a function of `core.cpp` ends. -/
inductive Outcome
  | returned
  | fatal
  | nullDereference
  | uninitialisedRead
  deriving DecidableEq, Repr

/-- The members of `CorePrivate` used by `core.cpp`, with the allocator state `heapNext` and
the log of external calls `trace`. -/
structure CorePrivate where
  mainDb : Option Ptr
  listeners : List Ptr
  calls : List Ptr
  chatRooms : List ChatRoom
  chatRoomsById : List (Nat × ChatRoom)
  noCreatedClientGroupChatRooms : List (Nat × ChatRoom)
  imee : Option Ptr
  heapNext : Ptr
  trace : List Event
  deriving DecidableEq, Repr

/-- Record one external call. -/
def emit (e : Event) (d : CorePrivate) : CorePrivate :=
  { d with trace := d.trace ++ [e] }

/-- The constant `LINPHONE_DB`. -/
def LINPHONE_DB : String := "linphone.db"

/-- Modelled from the spec: `lp_config_get_string`, the key/value lookup of the
configuration reader; the default is returned when the key is absent (`none` is `nullptr`). -/
def lp_config_get_string (config : LpConfig) (sec key : String) (default_string : Option String) :
    Option String :=
  match config.find? (fun item => item.1 = sec && item.2.1 = key) with
  | some item => some item.2.2
  | none => default_string

/-- Modelled from the spec: the wrapper `L_C_TO_STRING`, which turns a C string into a
`std::string`; a URI that is not configured (`nullptr`) reads as the empty string. -/
def L_C_TO_STRING (str : Option String) : String :=
  match str with
  | some s => s
  | none => ""

/-- The C library `strcmp` on a non-null pair of strings (configuration values are
NUL-terminated, so equality of C strings is equality of their contents). -/
def strcmp (a b : String) : Int :=
  if a = b then 0 else if a < b then -1 else 1

/-- Lines 47-56 of `CorePrivate::init`: the backend and URI handed to `connect`.
`none` when `strcmp` is given the null pointer that `lp_config_get_string` returns for an
absent `backend` key. -/
def storageSelection (config : LpConfig) (dataPath : String) : Option (Backend × String) :=
  let uri := L_C_TO_STRING (lp_config_get_string config "storage" "uri" none)
  if uri ≠ "" then
    match lp_config_get_string config "storage" "backend" none with
    | none => none
    | some name => some (if strcmp name "mysql" = 0 then Backend.Mysql else Backend.Sqlite3, uri)
  else
    some (Backend.Sqlite3, dataPath ++ LINPHONE_DB)

/-- Modelled from the spec: the logger stream `lFatal()`; a fatal condition means "the process
must not continue operating", so control never comes back from it. -/
def lFatal (msg : String) (d : CorePrivate) : Outcome × CorePrivate :=
  (Outcome.fatal, emit (Event.lFatal msg) d)

/-- Modelled from the spec: `CorePrivate::loadChatRooms` (defined outside `core.cpp`), which
loads "all persisted conversations into the two lookup maps"; `stored` is what the store
holds. -/
def CorePrivate.loadChatRooms (stored : List ChatRoom) (d : CorePrivate) : CorePrivate :=
  { emit Event.loadChatRooms d with
    chatRooms := stored
    chatRoomsById := stored.map (fun r => (r.chatRoomId, r)) }

/-- The function `CorePrivate::init`. `dataPath` is `q->getDataPath()`, `connect` the store's
`connect`, `stored` the conversations the store holds. -/
def CorePrivate.init (config : LpConfig) (dataPath : String) (connect : Backend → String → Bool)
    (stored : List ChatRoom) (d : CorePrivate) : Outcome × CorePrivate :=
  let d := { d with mainDb := some d.heapNext, heapNext := d.heapNext + 1 }
  match storageSelection config dataPath with
  | none => (Outcome.nullDereference, d)
  | some (backend, uri) =>
    let d := emit (Event.lInfo ("Opening linphone database: " ++ uri)) d
    let d := emit (Event.connect backend uri) d
    if !connect backend uri then
      lFatal "Unable to open linphone database." d
    else
      (Outcome.returned, CorePrivate.loadChatRooms stored d)

/-- The function `CorePrivate::registerListener`: `listeners.push_back(listener)`. -/
def CorePrivate.registerListener (listener : Ptr) (d : CorePrivate) : CorePrivate :=
  { d with listeners := d.listeners ++ [listener] }

/-- The member `std::list::remove`: erases every element equal to `value`. -/
def listRemove (value : Ptr) : List Ptr → List Ptr
  | [] => []
  | x :: xs => if x = value then listRemove value xs else x :: listRemove value xs

/-- The function `CorePrivate::unregisterListener`: `listeners.remove(listener)`. -/
def CorePrivate.unregisterListener (listener : Ptr) (d : CorePrivate) : CorePrivate :=
  { d with listeners := listRemove listener d.listeners }

/-- The loop of `CorePrivate::uninit`. `iterate front calls` is the active-call list left by
`linphone_core_iterate` when `front` was just asked to terminate and `calls` was active.
`none`: the fuel ran out with calls still active. -/
def CorePrivate.uninitLoop (iterate : Ptr → List Ptr → List Ptr) :
    Nat → CorePrivate → Option CorePrivate
  | 0, d => if d.calls = [] then some d else none
  | fuel + 1, d =>
    match d.calls with
    | [] => some d
    | front :: _ =>
      let d := emit (Event.terminate front) d
      let d := { emit Event.linphone_core_iterate d with calls := iterate front d.calls }
      let d := emit (Event.ms_usleep 10000) d
      CorePrivate.uninitLoop iterate fuel d

/-- The function `CorePrivate::uninit`. -/
def CorePrivate.uninit (iterate : Ptr → List Ptr → List Ptr) (fuel : Nat) (d : CorePrivate) :
    Option CorePrivate :=
  match CorePrivate.uninitLoop iterate fuel d with
  | none => none
  | some d =>
    let d := { d with chatRooms := [] }
    let d := { d with chatRoomsById := [] }
    let d := { d with noCreatedClientGroupChatRooms := [] }
    some (emit Event.clearSipAddressesCache d)

/-- The function `CorePrivate::notifyNetworkReachable`. -/
def CorePrivate.notifyNetworkReachable (sipNetworkReachable mediaNetworkReachable : Bool)
    (d : CorePrivate) : CorePrivate :=
  d.listeners.foldl
    (fun acc listener =>
      emit (Event.onNetworkReachable listener sipNetworkReachable mediaNetworkReachable) acc) d

/-- The function `CorePrivate::notifyRegistrationStateChanged`. -/
def CorePrivate.notifyRegistrationStateChanged (cfg : LinphoneProxyConfig)
    (state : LinphoneRegistrationState) (message : String) (d : CorePrivate) : CorePrivate :=
  d.listeners.foldl
    (fun acc listener => emit (Event.onRegistrationStateChanged listener cfg state message) acc) d

/-- The function `Core::create` (running the constructor `Core::Core`): a fresh
`CorePrivate` with the engine slot reset. -/
def Core.create : CorePrivate :=
  { mainDb := none, listeners := [], calls := [], chatRooms := [], chatRoomsById := [],
    noCreatedClientGroupChatRooms := [], imee := none, heapNext := 0, trace := [] }

/-- The function `Core::setEncryptionEngine`: `d->imee.reset(imee)`, which destroys the
engine held before, if any. -/
def Core.setEncryptionEngine (imee : Ptr) (d : CorePrivate) : CorePrivate :=
  match d.imee with
  | none => { d with imee := some imee }
  | some old => { emit (Event.deleteEngine old) d with imee := some imee }

/-- The function `Core::getEncryptionEngine`. -/
def Core.getEncryptionEngine (d : CorePrivate) : Option Ptr :=
  d.imee

/-- The function `Core::limeV2Enabled`. -/
def Core.limeV2Enabled (d : CorePrivate) : Bool :=
  if d.imee ≠ none then true else false

/-- What `Core::enableLimeV2` asks of the encryption library: `getGruu uri` is
`IdentityAddress(uri).getGruu()`, and `createUserThrows localDeviceId` is the `what()` of the
`std::exception` that `create_user` throws for that device, if it throws. -/
structure LimeEnv where
  getGruu : String → String
  createUserThrows : String → Option String

/-- The `for` loop of `Core::enableLimeV2` over the proxy configuration list.
`limeV2Engine` is the local variable of that name (`none` while uninitialised). -/
def Core.provisionLoop (env : LimeEnv) (limeV2Engine : Option Ptr) :
    List LinphoneProxyConfig → CorePrivate → Outcome × CorePrivate
  | [], d => (Outcome.returned, d)
  | config :: next, d =>
    if !config.limeV2Enabled then
      Core.provisionLoop env limeV2Engine next d
    else
      match config.contact with
      | none => (Outcome.returned, d)
      | some la =>
        let localDeviceId := env.getGruu la.asStringUriOnly
        if localDeviceId = "" then
          (Outcome.returned, d)
        else
          let x3dhServerUrl := "https://localhost:25519"
          let curve := CurveId.c25519
          match limeV2Engine with
          | none => (Outcome.uninitialisedRead, d)
          | some engine =>
            let d := emit (Event.setLimeCallback engine "") d
            let d := emit (Event.create_user engine localDeviceId x3dhServerUrl curve) d
            let d :=
              match env.createUserThrows localDeviceId with
              | some what => emit (Event.ms_message (what ++ " while creating lime user\n")) d
              | none => d
            Core.provisionLoop env limeV2Engine next d

/-- The function `Core::enableLimeV2`. `proxyConfigList` is
`linphone_core_get_proxy_config_list(getCCore())`. -/
def Core.enableLimeV2 (env : LimeEnv) (proxyConfigList : List LinphoneProxyConfig)
    (enable : Bool) (d : CorePrivate) : Outcome × CorePrivate :=
  let d := if d.imee ≠ none then { d with imee := none } else d
  if !enable then
    (Outcome.returned, d)
  else
    let r : Option Ptr × CorePrivate :=
      if d.imee = none then
        let db_access := "test.c25519.sqlite3"
        let limeV2Engine := d.heapNext
        let d := { emit (Event.newLimeV2 limeV2Engine db_access) d with
                   heapNext := d.heapNext + 1 }
        let d := Core.setEncryptionEngine limeV2Engine d
        let d := CorePrivate.registerListener limeV2Engine d
        (some limeV2Engine, d)
      else
        (none, d)
    Core.provisionLoop env r.1 proxyConfigList r.2

/-- Modelled from the spec: `linphone_core_lime_v2_enabled` (the C API function, defined
outside `core.cpp`), the "runtime feature check" guarding `update`, which makes `update` a
"no-op, not an error, when Disabled": it reports `Core::limeV2Enabled`, "true iff engine is
non-null". -/
def linphone_core_lime_v2_enabled (d : CorePrivate) : Bool :=
  Core.limeV2Enabled d

/-- The function `Core::updateLimeV2`. `config` is `getCCore()->config`. -/
def Core.updateLimeV2 (config : LpConfig) (d : CorePrivate) : Outcome × CorePrivate :=
  if linphone_core_lime_v2_enabled d then
    match d.imee with
    | none => (Outcome.nullDereference, d)
    | some engine => (Outcome.returned, emit (Event.update engine config) d)
  else
    (Outcome.returned, d)

/-! ## Reading a trace -/

/-- Is the event a `connect` of the store? -/
def Event.isConnect : Event → Bool
  | Event.connect _ _ => true
  | _ => false

/-- Is the event a `terminate` request to a call? -/
def Event.isTerminate : Event → Bool
  | Event.terminate _ => true
  | _ => false

/-- Is the event a `create_user` (create-identity) request? -/
def Event.isCreateUser : Event → Bool
  | Event.create_user _ _ _ _ => true
  | _ => false

/-- The events of one round of the drain loop for the call `c`. -/
def drainRound (c : Ptr) : List Event :=
  [Event.terminate c, Event.linphone_core_iterate, Event.ms_usleep 10000]

/-! ## Auxiliary definitions for the statements -/

/-- A sequence of `registerListener` calls, one per element of `ls`, in order. -/
def registerAll (ls : List Ptr) (d : CorePrivate) : CorePrivate :=
  ls.foldl (fun acc l => CorePrivate.registerListener l acc) d

/-- Every engine address in the slot was handed out by the allocator. -/
def CorePrivate.engineAllocated (d : CorePrivate) : Prop :=
  match d.imee with
  | none => True
  | some engine => engine < d.heapNext

/-- An encryption library for the examples: only the contact of entry C carries a GRUU, and
`create_user` never throws. -/
def exampleEnv : LimeEnv :=
  { getGruu := fun uri => if uri = "sip:c@example.org;gr=urn:uuid:c" then "urn:uuid:c" else ""
    createUserThrows := fun _ => none }

/-- Entry A: encryption enabled, contact address without GRUU. -/
def entryA : LinphoneProxyConfig := ⟨true, some ⟨"sip:a@example.org"⟩⟩

/-- Entry B: encryption disabled. -/
def entryB : LinphoneProxyConfig := ⟨false, some ⟨"sip:b@example.org"⟩⟩

/-- Entry C: encryption enabled, contact address with a GRUU. -/
def entryC : LinphoneProxyConfig := ⟨true, some ⟨"sip:c@example.org;gr=urn:uuid:c"⟩⟩

/-! ## `CorePrivate::init` -/

/-- Backend selection where the code defines it: without a URI (absent or empty) the embedded
backend at `dataPath ++ "linphone.db"`; with a URI and a present backend name, the networked
backend exactly for the name "mysql"; with a URI and no backend name, nothing is selected. -/
theorem storageSelection_cases (config : LpConfig) (dataPath : String) :
    (L_C_TO_STRING (lp_config_get_string config "storage" "uri" none) = "" →
      storageSelection config dataPath = some (Backend.Sqlite3, dataPath ++ "linphone.db")) ∧
    (∀ name, L_C_TO_STRING (lp_config_get_string config "storage" "uri" none) ≠ "" →
      lp_config_get_string config "storage" "backend" none = some name →
      storageSelection config dataPath =
        some (if name = "mysql" then Backend.Mysql else Backend.Sqlite3,
              L_C_TO_STRING (lp_config_get_string config "storage" "uri" none))) ∧
    (L_C_TO_STRING (lp_config_get_string config "storage" "uri" none) ≠ "" →
      lp_config_get_string config "storage" "backend" none = none →
      storageSelection config dataPath = none) := by
  refine ⟨?_, ?_, ?_⟩
  · intro h
    simp [storageSelection, h, LINPHONE_DB]
  · intro name h hb
    by_cases hn : name = "mysql" <;> simp [storageSelection, h, hb, strcmp, hn]
    split <;> simp
  · intro h hb
    simp [storageSelection, h, hb]

/-- C1, at the failing input: with `storage/uri = "db.sqlite3"` and no `storage/backend` key,
`CorePrivate::init` hands the null pointer to `strcmp`; `connect` is never called. -/
theorem init_absent_backend_null_dereference :
    (CorePrivate.init [("storage", "uri", "db.sqlite3")] "/data/" (fun _ _ => true) []
        Core.create).1 = Outcome.nullDereference ∧
    (CorePrivate.init [("storage", "uri", "db.sqlite3")] "/data/" (fun _ _ => true) []
        Core.create).2.trace = [] := by
  decide

/-- C2: when `init` reaches `connect backend uri` (the store selection is defined), `connect`
is attempted exactly once; if it returns false, `init` ends in the fatal condition, no
`loadChatRooms` call is made and both conversation maps are as before; if it returns true,
`init` returns after exactly one `loadChatRooms`, made right after the `connect`, and the maps
hold the stored conversations. -/
theorem init_fatal_on_connect_failure (config : LpConfig) (dataPath : String)
    (connect : Backend → String → Bool) (stored : List ChatRoom) (d : CorePrivate)
    (backend : Backend) (uri : String)
    (hsel : storageSelection config dataPath = some (backend, uri)) :
    ((CorePrivate.init config dataPath connect stored d).2.trace.drop d.trace.length).countP
        Event.isConnect = 1 ∧
    (connect backend uri = false →
      (CorePrivate.init config dataPath connect stored d).1 = Outcome.fatal ∧
      (CorePrivate.init config dataPath connect stored d).2.trace =
        d.trace ++ [Event.lInfo ("Opening linphone database: " ++ uri),
                    Event.connect backend uri,
                    Event.lFatal "Unable to open linphone database."] ∧
      Event.loadChatRooms ∉
        (CorePrivate.init config dataPath connect stored d).2.trace.drop d.trace.length ∧
      (CorePrivate.init config dataPath connect stored d).2.chatRooms = d.chatRooms ∧
      (CorePrivate.init config dataPath connect stored d).2.chatRoomsById = d.chatRoomsById) ∧
    (connect backend uri = true →
      (CorePrivate.init config dataPath connect stored d).1 = Outcome.returned ∧
      (CorePrivate.init config dataPath connect stored d).2.trace =
        d.trace ++ [Event.lInfo ("Opening linphone database: " ++ uri),
                    Event.connect backend uri,
                    Event.loadChatRooms] ∧
      ((CorePrivate.init config dataPath connect stored d).2.trace.drop d.trace.length).count
        Event.loadChatRooms = 1 ∧
      (CorePrivate.init config dataPath connect stored d).2.chatRooms = stored ∧
      (CorePrivate.init config dataPath connect stored d).2.chatRoomsById =
        stored.map (fun r => (r.chatRoomId, r))) := by
  cases hc : connect backend uri <;>
    simp [CorePrivate.init, hsel, hc, lFatal, emit, CorePrivate.loadChatRooms, Event.isConnect,
      List.countP_cons, List.count_cons]

/-- C2 at a concrete input: no URI configured and a store whose `connect` fails. -/
theorem init_fatal_on_connect_failure_witness :
    storageSelection [] "/data/" = some (Backend.Sqlite3, "/data/linphone.db") ∧
    (CorePrivate.init [] "/data/" (fun _ _ => false) [⟨7⟩] Core.create).1 = Outcome.fatal :=
  ⟨by decide,
   ((init_fatal_on_connect_failure [] "/data/" (fun _ _ => false) [⟨7⟩] Core.create
      Backend.Sqlite3 "/data/linphone.db" (by decide)).2.1 rfl).1⟩

/-! ## `CorePrivate::uninit` -/

/-- One drain round per call holds exactly one termination request per call. -/
theorem countP_isTerminate_drainRounds (cs : List Ptr) :
    ((cs.map drainRound).flatten).countP Event.isTerminate = cs.length := by
  induction cs with
  | nil => rfl
  | cons c cs ih =>
    simp [drainRound, List.countP_cons, Event.isTerminate, ih, List.countP_append] at *

/-- When each `linphone_core_iterate` removes the call just asked to terminate, the loop ends
within one round per call, with the calls drained in list order. -/
theorem uninitLoop_cooperative (iterate : Ptr → List Ptr → List Ptr)
    (hcoop : ∀ c cs, iterate c (c :: cs) = cs) :
    ∀ (fuel : Nat) (d : CorePrivate), d.calls.length ≤ fuel →
      CorePrivate.uninitLoop iterate fuel d =
        some { d with calls := [], trace := d.trace ++ (d.calls.map drainRound).flatten } := by
  intro fuel
  induction fuel with
  | zero =>
    intro d hd
    have hnil : d.calls = [] := List.length_eq_zero.mp (Nat.le_zero.mp hd)
    cases d
    simp_all [CorePrivate.uninitLoop]
  | succ fuel ih =>
    intro d hd
    cases d with
    | mk mainDb listeners calls chatRooms chatRoomsById noCreated imee heapNext trace =>
      cases calls with
      | nil => simp [CorePrivate.uninitLoop]
      | cons c cs =>
        have hlen : cs.length ≤ fuel := by simpa using hd
        simp [CorePrivate.uninitLoop, emit, hcoop, ih, hlen, drainRound]

/-- The loop only ever ends with no active call left, whatever the calls do. -/
theorem uninitLoop_calls_empty (iterate : Ptr → List Ptr → List Ptr) :
    ∀ (fuel : Nat) (d d' : CorePrivate),
      CorePrivate.uninitLoop iterate fuel d = some d' → d'.calls = [] := by
  intro fuel
  induction fuel with
  | zero =>
    intro d d' h
    by_cases hc : d.calls = []
    · simp [CorePrivate.uninitLoop, hc] at h
      rw [← h]; exact hc
    · simp [CorePrivate.uninitLoop, hc] at h
  | succ fuel ih =>
    intro d d' h
    cases hc : d.calls with
    | nil =>
      simp [CorePrivate.uninitLoop, hc] at h
      rw [← h]; exact hc
    | cons c cs =>
      simp only [CorePrivate.uninitLoop, hc] at h
      exact ih _ _ h

/-- C3: if every `linphone_core_iterate` removes from the active set the call that was just
asked to terminate (and nothing else changes the set), then for a set of `N` calls and any
fuel of at least `N`, `uninit` returns; on return the active set is empty, the calls made are
exactly one round `terminate front; linphone_core_iterate; ms_usleep 10000` per call, in list
order, followed by `clearSipAddressesCache`, so `N` termination requests in all, and both
conversation maps are empty. Whatever the calls do, `uninit` never returns with an active call
left. With no active call it returns having made no call but `clearSipAddressesCache`. -/
theorem uninit_drains_active_calls (iterate : Ptr → List Ptr → List Ptr) (d : CorePrivate)
    (fuel : Nat) (hcoop : ∀ c cs, iterate c (c :: cs) = cs) (hfuel : d.calls.length ≤ fuel) :
    (∃ d', CorePrivate.uninit iterate fuel d = some d' ∧
      d'.calls = [] ∧
      d'.trace = d.trace ++ (d.calls.map drainRound).flatten ++ [Event.clearSipAddressesCache] ∧
      (d'.trace.drop d.trace.length).countP Event.isTerminate = d.calls.length ∧
      d'.chatRooms = [] ∧ d'.chatRoomsById = []) ∧
    (∀ (it : Ptr → List Ptr → List Ptr) (f : Nat) (d' : CorePrivate),
      CorePrivate.uninit it f d = some d' → d'.calls = []) ∧
    (d.calls = [] → ∀ (it : Ptr → List Ptr → List Ptr) (f : Nat),
      ∃ d', CorePrivate.uninit it f d = some d' ∧
        d'.trace = d.trace ++ [Event.clearSipAddressesCache]) := by
  refine ⟨?_, ?_, ?_⟩
  · have hu : CorePrivate.uninit iterate fuel d =
        some (emit Event.clearSipAddressesCache
          { d with calls := [], trace := d.trace ++ (d.calls.map drainRound).flatten,
                   chatRooms := [], chatRoomsById := [],
                   noCreatedClientGroupChatRooms := [] }) := by
      simp only [CorePrivate.uninit, uninitLoop_cooperative iterate hcoop fuel d hfuel]
    refine ⟨_, hu, ?_, ?_, ?_, ?_, ?_⟩
    · simp [emit]
    · simp [emit]
    · simp only [emit, List.append_assoc, List.drop_left, List.countP_append,
        countP_isTerminate_drainRounds]
      simp [Event.isTerminate]
    · simp [emit]
    · simp [emit]
  · intro it f d' h
    unfold CorePrivate.uninit at h
    cases hl : CorePrivate.uninitLoop it f d with
    | none => simp [hl] at h
    | some d1 =>
      simp [hl] at h
      rw [← h]
      simpa [emit] using uninitLoop_calls_empty it f d d1 hl
  · intro hnil it f
    have hl : CorePrivate.uninitLoop it f d = some d := by
      cases f <;> simp [CorePrivate.uninitLoop, hnil]
    have hu : CorePrivate.uninit it f d =
        some (emit Event.clearSipAddressesCache
          { d with chatRooms := [], chatRoomsById := [],
                   noCreatedClientGroupChatRooms := [] }) := by
      simp only [CorePrivate.uninit, hl]
    exact ⟨_, hu, by simp [emit]⟩

/-- C3 at a concrete input: three active calls, each leaving the set on the iterate step
after its termination request. -/
theorem uninit_drains_active_calls_witness :
    (∀ c cs, (fun (c : Ptr) (cs : List Ptr) => cs.erase c) c (c :: cs) = cs) ∧
    ∃ d', CorePrivate.uninit (fun c cs => cs.erase c) 3
        { Core.create with calls := [4, 5, 6] } = some d' ∧
      d'.calls = [] ∧
      d'.trace = drainRound 4 ++ drainRound 5 ++ drainRound 6 ++
        [Event.clearSipAddressesCache] :=
  ⟨by simp, by
    obtain ⟨d', h1, h2, h3, -⟩ :=
      (uninit_drains_active_calls (fun c cs => cs.erase c)
        { Core.create with calls := [4, 5, 6] } 3 (by simp) (by simp [Core.create])).1
    exact ⟨d', h1, h2, by simpa [Core.create] using h3⟩⟩

/-! ## Listeners -/

/-- Registering a sequence of listeners appends it to the collection and changes nothing
else. -/
theorem registerAll_eq (ls : List Ptr) :
    ∀ d : CorePrivate, registerAll ls d = { d with listeners := d.listeners ++ ls } := by
  induction ls with
  | nil => intro d; simp [registerAll]
  | cons l ls ih =>
    intro d
    have h := ih (CorePrivate.registerListener l d)
    simp only [registerAll, List.foldl_cons] at h ⊢
    rw [h]
    simp [CorePrivate.registerListener]

/-- A range-for loop whose body makes one external call per element logs the calls in list
order and changes nothing else. -/
theorem foldl_emit (f : Ptr → Event) (ls : List Ptr) :
    ∀ d : CorePrivate,
      ls.foldl (fun acc l => emit (f l) acc) d = { d with trace := d.trace ++ ls.map f } := by
  induction ls with
  | nil => intro d; simp
  | cons l ls ih =>
    intro d
    simp only [List.foldl_cons]
    rw [ih]
    simp [emit]

/-- The handler call made for a listener determines the listener. -/
theorem onNetworkReachable_injective (sip media : Bool) :
    Function.Injective (fun l : Ptr => Event.onNetworkReachable l sip media) := by
  intro a b h
  simpa using h

/-- The handler call made for a listener determines the listener. -/
theorem onRegistrationStateChanged_injective (cfg : LinphoneProxyConfig)
    (state : LinphoneRegistrationState) (message : String) :
    Function.Injective (fun l : Ptr => Event.onRegistrationStateChanged l cfg state message) := by
  intro a b h
  simpa using h

/-- C4: after any sequence `ls` of `registerListener` calls the collection is the old one
followed by `ls`; `notifyRegistrationStateChanged` and `notifyNetworkReachable` then call the
handler once per entry of the collection, in that order, with the arguments of the notify, so
a listener is called as many times as it is registered; notify leaves the collection
unchanged, and with an empty collection it changes nothing at all. -/
theorem notify_fan_out (ls : List Ptr) (d : CorePrivate) (cfg : LinphoneProxyConfig)
    (state : LinphoneRegistrationState) (message : String) (sip media : Bool) :
    (registerAll ls d).listeners = d.listeners ++ ls ∧
    (CorePrivate.notifyRegistrationStateChanged cfg state message (registerAll ls d)).trace =
      (registerAll ls d).trace ++
        (d.listeners ++ ls).map (fun l => Event.onRegistrationStateChanged l cfg state message) ∧
    (CorePrivate.notifyNetworkReachable sip media (registerAll ls d)).trace =
      (registerAll ls d).trace ++
        (d.listeners ++ ls).map (fun l => Event.onNetworkReachable l sip media) ∧
    (∀ l : Ptr,
      (((CorePrivate.notifyRegistrationStateChanged cfg state message (registerAll ls d)).trace.drop
          (registerAll ls d).trace.length).count
        (Event.onRegistrationStateChanged l cfg state message) = (d.listeners ++ ls).count l) ∧
      (((CorePrivate.notifyNetworkReachable sip media (registerAll ls d)).trace.drop
          (registerAll ls d).trace.length).count
        (Event.onNetworkReachable l sip media) = (d.listeners ++ ls).count l)) ∧
    (CorePrivate.notifyRegistrationStateChanged cfg state message (registerAll ls d)).listeners =
      (registerAll ls d).listeners ∧
    (CorePrivate.notifyNetworkReachable sip media (registerAll ls d)).listeners =
      (registerAll ls d).listeners ∧
    (d.listeners = [] →
      CorePrivate.notifyRegistrationStateChanged cfg state message d = d ∧
      CorePrivate.notifyNetworkReachable sip media d = d) := by
  have hreg := foldl_emit (fun l => Event.onRegistrationStateChanged l cfg state message)
  have hnet := foldl_emit (fun l => Event.onNetworkReachable l sip media)
  have creg := fun (l : Ptr) (xs : List Ptr) =>
    List.count_map_of_injective xs _ (onRegistrationStateChanged_injective cfg state message) l
  have cnet := fun (l : Ptr) (xs : List Ptr) =>
    List.count_map_of_injective xs _ (onNetworkReachable_injective sip media) l
  refine ⟨?_, ?_, ?_, ?_, ?_, ?_, ?_⟩
  · simp [registerAll_eq]
  · simp [CorePrivate.notifyRegistrationStateChanged, hreg, registerAll_eq]
  · simp [CorePrivate.notifyNetworkReachable, hnet, registerAll_eq]
  · intro l
    constructor
    · simpa [CorePrivate.notifyRegistrationStateChanged, hreg, registerAll_eq] using
        creg l (d.listeners ++ ls)
    · simpa [CorePrivate.notifyNetworkReachable, hnet, registerAll_eq] using
        cnet l (d.listeners ++ ls)
  · simp [CorePrivate.notifyRegistrationStateChanged, hreg, registerAll_eq]
  · simp [CorePrivate.notifyNetworkReachable, hnet, registerAll_eq]
  · intro h
    simp [CorePrivate.notifyRegistrationStateChanged, CorePrivate.notifyNetworkReachable, h]

/-- The member `std::list::remove` keeps exactly the elements different from `value`. -/
theorem listRemove_eq_filter (value : Ptr) (xs : List Ptr) :
    listRemove value xs = xs.filter (fun x => x ≠ value) := by
  induction xs with
  | nil => rfl
  | cons x xs ih =>
    by_cases h : x = value <;> simp [listRemove, h, ih]

/-- C8: `unregisterListener l` removes every occurrence of `l` and keeps all other entries,
with their multiplicities, in their original relative order, touching nothing but the
collection; so unregistering a listener that is not registered changes nothing, and
unregistering twice is the same as unregistering once. -/
theorem unregisterListener_semantics (l : Ptr) (d : CorePrivate) :
    (CorePrivate.unregisterListener l d).listeners = d.listeners.filter (fun x => x ≠ l) ∧
    l ∉ (CorePrivate.unregisterListener l d).listeners ∧
    (∀ x, x ≠ l → (CorePrivate.unregisterListener l d).listeners.count x = d.listeners.count x) ∧
    List.Sublist (CorePrivate.unregisterListener l d).listeners d.listeners ∧
    CorePrivate.unregisterListener l d =
      { d with listeners := (CorePrivate.unregisterListener l d).listeners } ∧
    (l ∉ d.listeners → CorePrivate.unregisterListener l d = d) ∧
    CorePrivate.unregisterListener l (CorePrivate.unregisterListener l d) =
      CorePrivate.unregisterListener l d := by
  refine ⟨?_, ?_, ?_, ?_, ?_, ?_, ?_⟩
  · simp [CorePrivate.unregisterListener, listRemove_eq_filter]
  · simp [CorePrivate.unregisterListener, listRemove_eq_filter, List.mem_filter]
  · intro x hx
    simp [CorePrivate.unregisterListener, listRemove_eq_filter, List.count_filter, hx]
  · simp [CorePrivate.unregisterListener, listRemove_eq_filter]
  · simp [CorePrivate.unregisterListener]
  · intro h
    have hf : d.listeners.filter (fun x => x ≠ l) = d.listeners := by
      rw [List.filter_eq_self]
      intro a ha
      have : a ≠ l := fun e => h (e ▸ ha)
      simpa using this
    unfold CorePrivate.unregisterListener
    rw [listRemove_eq_filter, hf]
  · simp [CorePrivate.unregisterListener, listRemove_eq_filter]

/-! ## The encryption engine -/

/-- With the engine variable initialised, the provisioning loop always returns, and it only
adds calls to the trace. -/
theorem provisionLoop_frame (env : LimeEnv) (engine : Ptr) :
    ∀ (cfgs : List LinphoneProxyConfig) (d : CorePrivate),
      ∃ evs, Core.provisionLoop env (some engine) cfgs d =
        (Outcome.returned, { d with trace := d.trace ++ evs }) := by
  intro cfgs
  induction cfgs with
  | nil => intro d; exact ⟨[], by simp [Core.provisionLoop]⟩
  | cons config next ih =>
    intro d
    cases hen : config.limeV2Enabled with
    | false =>
      obtain ⟨evs, h⟩ := ih d
      exact ⟨evs, by simp [Core.provisionLoop, hen, h]⟩
    | true =>
      cases hla : config.contact with
      | none => exact ⟨[], by simp [Core.provisionLoop, hen, hla]⟩
      | some la =>
        by_cases hid : env.getGruu la.asStringUriOnly = ""
        · exact ⟨[], by simp [Core.provisionLoop, hen, hla, hid]⟩
        · cases hthrow : env.createUserThrows (env.getGruu la.asStringUriOnly) with
          | none =>
            obtain ⟨evs, h⟩ := ih (emit (Event.create_user engine (env.getGruu la.asStringUriOnly)
              "https://localhost:25519" CurveId.c25519) (emit (Event.setLimeCallback engine "") d))
            refine ⟨[Event.setLimeCallback engine "",
              Event.create_user engine (env.getGruu la.asStringUriOnly)
                "https://localhost:25519" CurveId.c25519] ++ evs, ?_⟩
            simp [emit] at h
            simp [Core.provisionLoop, hen, hla, hid, hthrow, emit, h]
          | some what =>
            obtain ⟨evs, h⟩ := ih (emit (Event.ms_message (what ++ " while creating lime user\n"))
              (emit (Event.create_user engine (env.getGruu la.asStringUriOnly)
                "https://localhost:25519" CurveId.c25519)
                (emit (Event.setLimeCallback engine "") d)))
            refine ⟨[Event.setLimeCallback engine "",
              Event.create_user engine (env.getGruu la.asStringUriOnly)
                "https://localhost:25519" CurveId.c25519,
              Event.ms_message (what ++ " while creating lime user\n")] ++ evs, ?_⟩
            simp [emit] at h
            simp [Core.provisionLoop, hen, hla, hid, hthrow, emit, h]

/-- An entry with encryption disabled is passed over: the loop behaves as if it were not in
the list. -/
theorem provisionLoop_skips_disabled (env : LimeEnv) (limeV2Engine : Option Ptr)
    (c : Option LinphoneAddress) (post : List LinphoneProxyConfig) :
    ∀ (pre : List LinphoneProxyConfig) (d : CorePrivate),
      Core.provisionLoop env limeV2Engine (pre ++ ⟨false, c⟩ :: post) d =
        Core.provisionLoop env limeV2Engine (pre ++ post) d := by
  intro pre
  induction pre with
  | nil => intro d; simp [Core.provisionLoop]
  | cons x pre ih => intro d; simp [Core.provisionLoop, ih]

/-- An encryption-enabled entry without contact address ends the loop: the loop behaves as if
the list stopped right before it. -/
theorem provisionLoop_returns_on_missing_contact (env : LimeEnv) (limeV2Engine : Option Ptr)
    (post : List LinphoneProxyConfig) :
    ∀ (pre : List LinphoneProxyConfig) (d : CorePrivate),
      Core.provisionLoop env limeV2Engine (pre ++ ⟨true, none⟩ :: post) d =
        Core.provisionLoop env limeV2Engine pre d := by
  intro pre
  induction pre with
  | nil => intro d; simp [Core.provisionLoop]
  | cons x pre ih => intro d; simp [Core.provisionLoop, ih]

/-- An encryption-enabled entry whose derived device id is empty ends the loop as well
(line 184 of `core.cpp` returns): the loop behaves as if the list stopped right before it. -/
theorem provisionLoop_returns_on_empty_device_id (env : LimeEnv) (limeV2Engine : Option Ptr)
    (la : LinphoneAddress) (post : List LinphoneProxyConfig)
    (hid : env.getGruu la.asStringUriOnly = "") :
    ∀ (pre : List LinphoneProxyConfig) (d : CorePrivate),
      Core.provisionLoop env limeV2Engine (pre ++ ⟨true, some la⟩ :: post) d =
        Core.provisionLoop env limeV2Engine pre d := by
  intro pre
  induction pre with
  | nil => intro d; simp [Core.provisionLoop, hid]
  | cons x pre ih => intro d; simp [Core.provisionLoop, ih]

/-- Enabling always starts by installing a fresh engine and registering it, whatever the
engine slot held; the provisioning loop then runs with that engine. -/
theorem enableLimeV2_true_unfold (env : LimeEnv) (cfgs : List LinphoneProxyConfig)
    (d : CorePrivate) :
    Core.enableLimeV2 env cfgs true d =
      Core.provisionLoop env (some d.heapNext) cfgs
        { d with imee := some d.heapNext, heapNext := d.heapNext + 1,
                 listeners := d.listeners ++ [d.heapNext],
                 trace := d.trace ++ [Event.newLimeV2 d.heapNext "test.c25519.sqlite3"] } := by
  cases d with
  | mk mainDb listeners calls chatRooms chatRoomsById noCreated imee heapNext trace =>
    cases imee <;>
      simp [Core.enableLimeV2, Core.setEncryptionEngine, CorePrivate.registerListener, emit]

/-- The state after `enableLimeV2(true)`: the call returns, the slot holds the fresh engine,
which was appended to the listeners, and the trace grew by the construction of the engine
followed by the calls of the provisioning loop. -/
theorem enableLimeV2_true_eq (env : LimeEnv) (cfgs : List LinphoneProxyConfig)
    (d : CorePrivate) :
    ∃ evs, Core.enableLimeV2 env cfgs true d =
      (Outcome.returned,
        { d with imee := some d.heapNext, heapNext := d.heapNext + 1,
                 listeners := d.listeners ++ [d.heapNext],
                 trace := d.trace ++ Event.newLimeV2 d.heapNext "test.c25519.sqlite3" :: evs }) := by
  obtain ⟨evs, h⟩ := provisionLoop_frame env d.heapNext cfgs
    { d with imee := some d.heapNext, heapNext := d.heapNext + 1,
             listeners := d.listeners ++ [d.heapNext],
             trace := d.trace ++ [Event.newLimeV2 d.heapNext "test.c25519.sqlite3"] }
  exact ⟨evs, by rw [enableLimeV2_true_unfold, h]; simp⟩

/-- The state after `enableLimeV2(false)`: the call returns with the slot emptied and
everything else as it was. -/
theorem enableLimeV2_false_eq (env : LimeEnv) (cfgs : List LinphoneProxyConfig)
    (d : CorePrivate) :
    Core.enableLimeV2 env cfgs false d = (Outcome.returned, { d with imee := none }) := by
  cases d with
  | mk mainDb listeners calls chatRooms chatRoomsById noCreated imee heapNext trace =>
    cases imee <;> simp [Core.enableLimeV2]

/-- A fresh core has an allocated (empty) engine slot, and `enableLimeV2` keeps the slot
allocated. -/
theorem engineAllocated_reachable (env : LimeEnv) (cfgs : List LinphoneProxyConfig)
    (enable : Bool) (d : CorePrivate) :
    Core.create.engineAllocated ∧
    (Core.enableLimeV2 env cfgs enable d).2.engineAllocated := by
  refine ⟨by simp [CorePrivate.engineAllocated, Core.create], ?_⟩
  cases enable with
  | false => simp [enableLimeV2_false_eq, CorePrivate.engineAllocated]
  | true =>
    obtain ⟨evs, h⟩ := enableLimeV2_true_eq env cfgs d
    simp [h, CorePrivate.engineAllocated]

/-- C5: from any state whose engine (if any) was handed out by the allocator, and for any
list of registration entries, `enableLimeV2(true)` returns without error with the slot holding
an engine constructed during the call, different from the one held before, registered as a
listener, and `limeV2Enabled` true; `enableLimeV2(false)` returns with the slot null and
`limeV2Enabled` false; on an already disabled core `enableLimeV2(false)` changes nothing;
`limeV2Enabled` is true exactly when the slot is non-null. -/
theorem enableLimeV2_state_machine (env : LimeEnv) (cfgs : List LinphoneProxyConfig)
    (d : CorePrivate) (hwf : d.engineAllocated) :
    (∃ d', Core.enableLimeV2 env cfgs true d = (Outcome.returned, d') ∧
      d'.imee = some d.heapNext ∧
      d'.imee ≠ d.imee ∧
      Event.newLimeV2 d.heapNext "test.c25519.sqlite3" ∈ d'.trace.drop d.trace.length ∧
      Core.limeV2Enabled d' = true ∧
      d.heapNext ∈ d'.listeners) ∧
    (∃ d', Core.enableLimeV2 env cfgs false d = (Outcome.returned, d') ∧
      d'.imee = none ∧ Core.limeV2Enabled d' = false) ∧
    (d.imee = none → Core.enableLimeV2 env cfgs false d = (Outcome.returned, d)) ∧
    (Core.limeV2Enabled d = true ↔ d.imee ≠ none) := by
  refine ⟨?_, ?_, ?_, ?_⟩
  · obtain ⟨evs, h⟩ := enableLimeV2_true_eq env cfgs d
    refine ⟨_, h, rfl, ?_, ?_, ?_, ?_⟩
    · intro heq
      cases himee : d.imee with
      | none => simp [himee] at heq
      | some old =>
        have hlt : old < d.heapNext := by
          simpa [CorePrivate.engineAllocated, himee] using hwf
        rw [himee] at heq
        have hEq : d.heapNext = old := Option.some.inj heq
        exact absurd hEq (Nat.ne_of_gt hlt)
    · simp
    · simp [Core.limeV2Enabled]
    · simp
  · exact ⟨_, enableLimeV2_false_eq env cfgs d, rfl, by simp [Core.limeV2Enabled]⟩
  · intro hnone
    rw [enableLimeV2_false_eq, ← hnone]
  · simp [Core.limeV2Enabled]

/-- C5 at a concrete input: a core whose engine 0 was installed by a first
`enableLimeV2(true)` is enabled again. -/
theorem enableLimeV2_state_machine_witness :
    (Core.enableLimeV2 ⟨fun uri => uri, fun _ => none⟩ [] true Core.create).2.engineAllocated ∧
    ∃ d', Core.enableLimeV2 ⟨fun uri => uri, fun _ => none⟩ [⟨true, some ⟨"sip:a"⟩⟩] true
        (Core.enableLimeV2 ⟨fun uri => uri, fun _ => none⟩ [] true Core.create).2 =
          (Outcome.returned, d') ∧
      d'.imee = some 1 ∧ d'.listeners = [0, 1] :=
  ⟨by simp [CorePrivate.engineAllocated, Core.enableLimeV2, Core.create, Core.provisionLoop,
      Core.setEncryptionEngine, CorePrivate.registerListener, emit], by
    obtain ⟨d', h1, h2, -⟩ :=
      (enableLimeV2_state_machine ⟨fun uri => uri, fun _ => none⟩ [⟨true, some ⟨"sip:a"⟩⟩]
        (Core.enableLimeV2 ⟨fun uri => uri, fun _ => none⟩ [] true Core.create).2
        (by simp [CorePrivate.engineAllocated, Core.enableLimeV2, Core.create,
          Core.provisionLoop, Core.setEncryptionEngine, CorePrivate.registerListener, emit])).1
    refine ⟨d', h1, ?_, ?_⟩
    · simpa [Core.enableLimeV2, Core.create, Core.provisionLoop, Core.setEncryptionEngine,
        CorePrivate.registerListener, emit] using h2
    · have h3 := h1
      simp [Core.enableLimeV2, Core.create, Core.provisionLoop, Core.setEncryptionEngine,
        CorePrivate.registerListener, emit] at h3
      rw [← h3]⟩

/-- C6, at the failing input: with entries A, B, C in that order, where A and C have
encryption enabled and a contact address and only C has a non-empty derived device id,
`enableLimeV2(true)` issues no `create_user` request at all (it returns at A), whereas with
B, C alone it issues the request for C. -/
theorem enableLimeV2_empty_device_id_stops_scan :
    (Core.enableLimeV2 exampleEnv [entryA, entryB, entryC] true Core.create).2.trace =
      [Event.newLimeV2 0 "test.c25519.sqlite3"] ∧
    ((Core.enableLimeV2 exampleEnv [entryA, entryB, entryC] true Core.create).2.trace).countP
      Event.isCreateUser = 0 ∧
    (Core.enableLimeV2 exampleEnv [entryB, entryC] true Core.create).2.trace =
      [Event.newLimeV2 0 "test.c25519.sqlite3", Event.setLimeCallback 0 "",
       Event.create_user 0 "urn:uuid:c" "https://localhost:25519" CurveId.c25519] := by
  decide

/-- The loop passes over a list of entries that all have encryption disabled without making
any call. -/
theorem provisionLoop_all_disabled (env : LimeEnv) (limeV2Engine : Option Ptr)
    (rest : List LinphoneProxyConfig) :
    ∀ (cs : List (Option LinphoneAddress)) (d : CorePrivate),
      Core.provisionLoop env limeV2Engine
          (cs.map (fun c => (⟨false, c⟩ : LinphoneProxyConfig)) ++ rest) d =
        Core.provisionLoop env limeV2Engine rest d := by
  intro cs
  induction cs with
  | nil => intro d; simp
  | cons c cs ih => intro d; simp [Core.provisionLoop, ih]

/-- C7: in `enableLimeV2(true)`, an entry with encryption disabled is passed over (the call
behaves as if the entry were not in the list, so it gets no request and does not stop the
scan); an encryption-enabled entry without contact address ends the scan (the call behaves as
if the list stopped right before that entry, so neither it nor any later entry gets a
request), and after disabled entries only the call makes no request at all; even then the
call returns normally, with the engine constructed at its start in the slot and among the
listeners. -/
theorem enableLimeV2_abort_on_missing_contact (env : LimeEnv)
    (pre post : List LinphoneProxyConfig) (c : Option LinphoneAddress)
    (cs : List (Option LinphoneAddress)) (d : CorePrivate) :
    Core.enableLimeV2 env (pre ++ ⟨false, c⟩ :: post) true d =
      Core.enableLimeV2 env (pre ++ post) true d ∧
    Core.enableLimeV2 env (pre ++ ⟨true, none⟩ :: post) true d =
      Core.enableLimeV2 env pre true d ∧
    (Core.enableLimeV2 env
        (cs.map (fun c => (⟨false, c⟩ : LinphoneProxyConfig)) ++ ⟨true, none⟩ :: post) true d).2.trace =
      d.trace ++ [Event.newLimeV2 d.heapNext "test.c25519.sqlite3"] ∧
    (Core.enableLimeV2 env (pre ++ ⟨true, none⟩ :: post) true d).1 = Outcome.returned ∧
    (Core.enableLimeV2 env (pre ++ ⟨true, none⟩ :: post) true d).2.imee = some d.heapNext ∧
    d.heapNext ∈ (Core.enableLimeV2 env (pre ++ ⟨true, none⟩ :: post) true d).2.listeners ∧
    Event.newLimeV2 d.heapNext "test.c25519.sqlite3" ∈
      (Core.enableLimeV2 env (pre ++ ⟨true, none⟩ :: post) true d).2.trace.drop d.trace.length := by
  obtain ⟨evs, h⟩ := enableLimeV2_true_eq env (pre ++ ⟨true, none⟩ :: post) d
  refine ⟨?_, ?_, ?_, ?_, ?_, ?_, ?_⟩
  · simp only [enableLimeV2_true_unfold, provisionLoop_skips_disabled]
  · simp only [enableLimeV2_true_unfold, provisionLoop_returns_on_missing_contact]
  · simp only [enableLimeV2_true_unfold, provisionLoop_all_disabled]
    simp [Core.provisionLoop]
  · simp [h]
  · simp [h]
  · simp [h]
  · simp [h]

/-- C9: with the engine slot null, `updateLimeV2` returns normally and leaves the state,
trace included, as it was (no `update` call, no null dereference); with an engine in the slot
and the feature check passing, it makes exactly one call, `update` of that engine with the
core's configuration, and changes nothing else. -/
theorem updateLimeV2_guarded (config : LpConfig) (d : CorePrivate) :
    (d.imee = none → Core.updateLimeV2 config d = (Outcome.returned, d)) ∧
    (∀ engine, d.imee = some engine → linphone_core_lime_v2_enabled d = true →
      Core.updateLimeV2 config d =
        (Outcome.returned, { d with trace := d.trace ++ [Event.update engine config] })) ∧
    (Core.updateLimeV2 config d).1 = Outcome.returned := by
  refine ⟨?_, ?_, ?_⟩
  · intro h
    simp [Core.updateLimeV2, linphone_core_lime_v2_enabled, Core.limeV2Enabled, h]
  · intro engine h _
    simp [Core.updateLimeV2, linphone_core_lime_v2_enabled, Core.limeV2Enabled, h, emit]
  · cases h : d.imee <;>
      simp [Core.updateLimeV2, linphone_core_lime_v2_enabled, Core.limeV2Enabled, h]

/-- C10: `enableLimeV2(true)` appends exactly the new engine to the listener collection and
`enableLimeV2(false)` leaves the collection as it was, so every listener registered before
the call is still registered, in the same order. Hence, after `enableLimeV2(true)` followed
by `enableLimeV2(b)` for either `b`, the engine created by the first call is not the core's
engine any more, is still in the collection, and is still called by
`notifyNetworkReachable` and `notifyRegistrationStateChanged`. -/
theorem enableLimeV2_never_unregisters (env : LimeEnv) (cfgs cfgs2 : List LinphoneProxyConfig)
    (b : Bool) (d : CorePrivate) (cfg : LinphoneProxyConfig) (state : LinphoneRegistrationState)
    (message : String) (sip media : Bool) :
    (Core.enableLimeV2 env cfgs true d).2.listeners = d.listeners ++ [d.heapNext] ∧
    (Core.enableLimeV2 env cfgs false d).2.listeners = d.listeners ∧
    (Core.enableLimeV2 env cfgs2 b (Core.enableLimeV2 env cfgs true d).2).2.imee ≠
      some d.heapNext ∧
    List.Sublist (d.listeners ++ [d.heapNext])
      (Core.enableLimeV2 env cfgs2 b (Core.enableLimeV2 env cfgs true d).2).2.listeners ∧
    Event.onNetworkReachable d.heapNext sip media ∈
      ((CorePrivate.notifyNetworkReachable sip media
          (Core.enableLimeV2 env cfgs2 b (Core.enableLimeV2 env cfgs true d).2).2).trace.drop
        (Core.enableLimeV2 env cfgs2 b (Core.enableLimeV2 env cfgs true d).2).2.trace.length) ∧
    Event.onRegistrationStateChanged d.heapNext cfg state message ∈
      ((CorePrivate.notifyRegistrationStateChanged cfg state message
          (Core.enableLimeV2 env cfgs2 b (Core.enableLimeV2 env cfgs true d).2).2).trace.drop
        (Core.enableLimeV2 env cfgs2 b (Core.enableLimeV2 env cfgs true d).2).2.trace.length) := by
  obtain ⟨evs, h1⟩ := enableLimeV2_true_eq env cfgs d
  have hreg := foldl_emit (fun l => Event.onRegistrationStateChanged l cfg state message)
  have hnet := foldl_emit (fun l => Event.onNetworkReachable l sip media)
  refine ⟨by simp [h1], by simp [enableLimeV2_false_eq], ?_⟩
  cases b with
  | false =>
    simp [h1, enableLimeV2_false_eq, CorePrivate.notifyNetworkReachable,
      CorePrivate.notifyRegistrationStateChanged, hreg, hnet]
  | true =>
    obtain ⟨evs2, h2⟩ := enableLimeV2_true_eq env cfgs2 (Core.enableLimeV2 env cfgs true d).2
    rw [h2]
    simp [h1, CorePrivate.notifyNetworkReachable,
      CorePrivate.notifyRegistrationStateChanged, hreg, hnet]

end Linphone
